import Mathlib

/-!
Verification development for the sqlbindarray repository.

The repository has three modules:
- lexer.py: a generic regular-expression driven tokenizer (class Lexer,
  method tokens), which scans an input string into a list of labeled
  tokens, representing unmatched regions as tokens whose kind is absent.
- encode.py: a function to_sql converting a python value (string, real
  number, list, None) into a SQL literal string.
- sqlbindarray.py: a three-state parser over the token stream which
  substitutes named placeholders by encoded bound values, driven by a
  transition function handle_token and a driver replace.

The shallow embedding below represents text as List Char. The generic
tokenizer is embedded as a fuel-indexed loop, lexFuel, parameterized by a
Matcher: the abstraction of a compiled regular expression, namely the
function that, given the remaining suffix of the input, either fails or
returns the winning alternative (its sub-pattern name, matched text,
captured subgroups) together with the unconsumed rest. The Python loop
scans for the leftmost match; lexFuel realizes that scan one character at
a time, accumulating the unmatched gap in reverse, and the fuel makes the
possibly diverging loop total (the Python generator diverges exactly when
no amount of fuel yields a result, which happens when the matcher returns
a zero-width match, as a regular expression such as x* does).

The ten fixed sub-patterns of sqlbindarray are embedded as concrete
matchers, hand-derived from the regular expressions in _token_patterns,
with word and whitespace character classes taken as the ASCII meaning of
the regex classes (all inputs considered in this development are ASCII).
-/

namespace Sqlbindarray

/-- Token produced by the tokenizer, mirroring lexer.Token: an optional
kind (absent for an unmatched region), the matched text, the captured
subgroups, and the half-open range of input offsets. -/
structure Token where
  kind : Option String
  text : List Char
  groups : List (Option (List Char))
  range : Nat × Nat
  deriving Repr, DecidableEq

/-- Result of attempting the combined regular expression at one position:
the name of the sub-pattern that won, the text it matched, its captured
subgroups, and the unconsumed remainder of the input. -/
structure MatchResult where
  kind : String
  text : List Char
  groups : List (Option (List Char))
  rest : List Char
  deriving Repr, DecidableEq

/-- Abstraction of a compiled regular expression: attempt a match at the
start of the given suffix of the input. -/
def Matcher : Type := List Char → Option MatchResult

/-- The regular expression engine only ever reports a match whose text is
a slice of the input at the match position. -/
def MatcherSplits (M : Matcher) : Prop :=
  ∀ cs r, M cs = some r → r.text ++ r.rest = cs

/-- A matcher never matches the empty string. This holds for the fixed
SQL sub-pattern set but not for every regular expression (x* is a
counterexample). -/
def MatcherProgress (M : Matcher) : Prop :=
  ∀ cs r, M cs = some r → r.text ≠ []

/-- No-match token for a pending unmatched gap (accumulated in reverse);
empty gaps produce no token, mirroring the start != index test in
Lexer.tokens. -/
def gapTokens (pos : Nat) (gap : List Char) : List Token :=
  if gap = [] then []
  else [{ kind := none, text := gap.reverse, groups := [],
          range := (pos - gap.length, pos) }]

/-- Fuel-indexed embedding of Lexer.tokens from lexer.py. The Python
loop keeps a cursor and searches for the leftmost match of the combined
pattern at or after the cursor; here the search is realized by trying the
matcher at each successive position, accumulating unmatched characters in
gap (reversed). When the matcher succeeds, the pending gap is emitted as
a no-match token followed by the matched token, and scanning resumes
after the match. When the input is exhausted, the pending gap is emitted.
Each recursive call spends one unit of fuel, so a zero-width match (which
leaves the cursor in place, as in the Python code) exhausts any fuel. -/
def lexFuel (M : Matcher) : Nat → Nat → List Char → List Char → Option (List Token)
  | 0, _, _, _ => none
  | fuel + 1, pos, gap, cs =>
    match M cs with
    | some r =>
      (lexFuel M fuel (pos + r.text.length) [] r.rest).map
        (fun ts => gapTokens pos gap ++
          { kind := some r.kind, text := r.text, groups := r.groups,
            range := (pos, pos + r.text.length) } :: ts)
    | none =>
      match cs with
      | [] => some (gapTokens pos gap)
      | c :: rest => lexFuel M fuel (pos + 1) (c :: gap) rest

/-- Concatenation of the text fields of a token list. -/
def concatTexts (ts : List Token) : List Char :=
  ts.foldr (fun t acc => t.text ++ acc) []

/-- ASCII meaning of the regex character class for word characters. -/
def isWordChar (c : Char) : Bool :=
  c.isAlphanum || c = '_'

/-- ASCII meaning of the regex character class for whitespace. -/
def isSpaceChar (c : Char) : Bool :=
  c = ' ' || c = '\t' || c = '\n' || c = '\r' || c.toNat = 11 || c.toNat = 12

/-- Matcher for the quoted string sub-pattern: a single quote, a maximal
run of characters other than a single quote, and a closing single quote;
fails when no closing quote exists. No captured subgroups. -/
def matchQuotedString : Matcher := fun cs =>
  match cs with
  | [] => none
  | c :: rest =>
    if c = '\'' then
      match rest.dropWhile (fun d => d != '\'') with
      | q :: rest2 =>
        some { kind := "quoted string",
               text := '\'' :: rest.takeWhile (fun d => d != '\'') ++ [q],
               groups := [], rest := rest2 }
      | [] => none
    else none

/-- Matcher for the quoted identifier sub-pattern: like the quoted string
but with double quotes, capturing the inner text. -/
def matchQuotedIdentifier : Matcher := fun cs =>
  match cs with
  | [] => none
  | c :: rest =>
    if c = '"' then
      match rest.dropWhile (fun d => d != '"') with
      | q :: rest2 =>
        some { kind := "quoted identifier",
               text := '"' :: rest.takeWhile (fun d => d != '"') ++ [q],
               groups := [some (rest.takeWhile (fun d => d != '"'))],
               rest := rest2 }
      | [] => none
    else none

/-- Matcher for the line comment sub-pattern: two dashes, a maximal run
of characters other than a newline, then the newline when present (it is
part of the token) or the end of input. -/
def matchLineComment : Matcher := fun cs =>
  match cs with
  | c1 :: c2 :: rest =>
    if c1 = '-' ∧ c2 = '-' then
      match rest.dropWhile (fun d => d != '\n') with
      | nl :: rest2 =>
        some { kind := "line comment",
               text := '-' :: '-' :: rest.takeWhile (fun d => d != '\n') ++ [nl],
               groups := [], rest := rest2 }
      | [] =>
        some { kind := "line comment",
               text := '-' :: '-' :: rest.takeWhile (fun d => d != '\n'),
               groups := [], rest := [] }
    else none
  | _ => none

/-- Scan for the first closing star-slash pair, returning the consumed
characters (closing pair included) and the remainder; fails when the
input ends first. This realizes the backtracking behavior of the block
comment regular expression, which matches up to the first closing
star-slash whose star is not the opening one. -/
def scanBlockEnd : List Char → Option (List Char × List Char)
  | [] => none
  | [_] => none
  | c1 :: c2 :: rest =>
    if c1 = '*' ∧ c2 = '/' then some (['*', '/'], rest)
    else (scanBlockEnd (c2 :: rest)).map (fun p => (c1 :: p.1, p.2))

/-- Matcher for the block comment sub-pattern. -/
def matchBlockComment : Matcher := fun cs =>
  match cs with
  | c1 :: c2 :: rest =>
    if c1 = '/' ∧ c2 = '*' then
      match scanBlockEnd rest with
      | some (consumed, rest2) =>
        some { kind := "block comment", text := '/' :: '*' :: consumed,
               groups := [], rest := rest2 }
      | none => none
    else none
  | _ => none

/-- Matcher for the named parameter prefix sub-pattern: a colon or an at
sign. -/
def matchColonAt : Matcher := fun cs =>
  match cs with
  | [] => none
  | c :: rest =>
    if c = ':' ∨ c = '@' then
      some { kind := "named parameter prefix", text := [c], groups := [],
             rest := rest }
    else none

/-- Matcher for the named parameter length prefix sub-pattern: a hash
followed by a colon or an at sign. -/
def matchHashColonAt : Matcher := fun cs =>
  match cs with
  | c1 :: c2 :: rest =>
    if c1 = '#' ∧ (c2 = ':' ∨ c2 = '@') then
      some { kind := "named parameter length prefix", text := [c1, c2],
             groups := [], rest := rest }
    else none
  | _ => none

/-- Matcher for the python named parameter sub-pattern: percent, open
parenthesis, a nonempty maximal run of word characters (captured), close
parenthesis, and the letter s. -/
def matchPyParam : Matcher := fun cs =>
  match cs with
  | c1 :: c2 :: rest =>
    if c1 = '%' ∧ c2 = '(' then
      let name := rest.takeWhile isWordChar
      if name.isEmpty then none
      else
        match rest.dropWhile isWordChar with
        | p :: s :: rest2 =>
          if p = ')' ∧ s = 's' then
            some { kind := "python named parameter",
                   text := '%' :: '(' :: name ++ [p, s],
                   groups := [some name], rest := rest2 }
          else none
        | _ => none
    else none
  | _ => none

/-- Matcher for the python named parameter length sub-pattern: like the
python named parameter but preceded by a hash. -/
def matchPyParamLength : Matcher := fun cs =>
  match cs with
  | c0 :: c1 :: c2 :: rest =>
    if c0 = '#' ∧ c1 = '%' ∧ c2 = '(' then
      let name := rest.takeWhile isWordChar
      if name.isEmpty then none
      else
        match rest.dropWhile isWordChar with
        | p :: s :: rest2 =>
          if p = ')' ∧ s = 's' then
            some { kind := "python named parameter length",
                   text := '#' :: '%' :: '(' :: name ++ [p, s],
                   groups := [some name], rest := rest2 }
          else none
        | _ => none
    else none
  | _ => none

/-- Matcher for the word sub-pattern: a nonempty maximal run of word
characters. -/
def matchWordTok : Matcher := fun cs =>
  let w := cs.takeWhile isWordChar
  if w.isEmpty then none
  else some { kind := "word", text := w, groups := [],
              rest := cs.dropWhile isWordChar }

/-- Matcher for the whitespace sub-pattern: a nonempty maximal run of
whitespace characters. -/
def matchWhitespaceTok : Matcher := fun cs =>
  let w := cs.takeWhile isSpaceChar
  if w.isEmpty then none
  else some { kind := "whitespace", text := w, groups := [],
              rest := cs.dropWhile isSpaceChar }

/-- Try a list of matchers in order and return the first success,
realizing the leftmost-alternative-wins semantics of the alternation in
the combined pattern. -/
def tryMatchers : List Matcher → Matcher
  | [], _ => none
  | m :: ms, cs =>
    match m cs with
    | some r => some r
    | none => tryMatchers ms cs

/-- The ten sub-patterns of _token_patterns, in their dictionary order. -/
def sqlMatchers : List Matcher :=
  [matchQuotedString, matchQuotedIdentifier, matchLineComment,
   matchBlockComment, matchColonAt, matchHashColonAt, matchPyParam,
   matchPyParamLength, matchWordTok, matchWhitespaceTok]

/-- The combined pattern of the sqlbindarray tokenizer, attempted at one
position. -/
def matchToken : Matcher := tryMatchers sqlMatchers

/-- Run the generic tokenizer to completion on the whole input. -/
def lexAll (M : Matcher) (cs : List Char) : Option (List Token) :=
  lexFuel M (cs.length + 1) 0 [] cs

/-- Token stream of the sqlbindarray substitution engine, as produced by
the module singleton lexer. -/
def sqlTokens (cs : List Char) : List Token :=
  (lexAll matchToken cs).getD []

/-- Python values accepted by encode.to_sql: strings, real numbers (here
modelled by the integers actually used as bindings), lists, and None.
The type is closed over exactly the supported kinds, so the unsupported
kind branch of to_sql has no counterpart. -/
inductive Value where
  | str : List Char → Value
  | int : Int → Value
  | list : List Value → Value
  | null : Value
  deriving Repr

/-- Double every single quote character, the replacement performed by
to_sql on strings; no other character is altered. -/
def doubleQuotes : List Char → List Char
  | [] => []
  | c :: cs =>
    if c = '\'' then '\'' :: '\'' :: doubleQuotes cs
    else c :: doubleQuotes cs

mutual

/-- Embedding of encode.to_sql: strings are wrapped in single quotes with
inner quotes doubled, numbers print in decimal, lists become
parenthesized comma-and-space separated recursive encodings, and None
becomes the text null. -/
def to_sql : Value → List Char
  | .str s => '\'' :: doubleQuotes s ++ ['\'']
  | .int n => (toString n).data
  | .list vs => '(' :: to_sql_list vs ++ [')']
  | .null => "null".data

/-- Comma-and-space join of the encodings of the list elements, the
meaning of the join call inside to_sql. -/
def to_sql_list : List Value → List Char
  | [] => []
  | [v] => to_sql v
  | v :: vs => to_sql v ++ ", ".data ++ to_sql_list vs

end

/-- Python builtin len on a bound value: element count of a list,
character count of a string; undefined (a raised TypeError) on numbers
and None. -/
def pyLen : Value → Option Nat
  | .str s => some s.length
  | .list vs => some vs.length
  | _ => none

/-- Bindings map from placeholder name to value, the mapping argument of
replace; membership of a name is the test name in bindings. -/
def Bindings : Type := List Char → Option Value

/-- The three parser states of _ParserState. -/
inductive ParserState where
  | CHILLIN
  | IN_PARAMETER
  | IN_PARAMETER_LENGTH
  deriving Repr, DecidableEq

/-- The three output operations of _OutputOperation. -/
inductive OutputOp where
  | PUSH
  | EMIT
  | FLUSH
  deriving Repr, DecidableEq

/-- Failures that the substitution engine can raise: the unexpected token
exception raised by _handle_token after a prefix, the TypeError raised by
len on a value with no length, and the impossible destructuring of a
token whose captured groups do not have the shape its kind guarantees. -/
inductive Err where
  | malformedPlaceholder
  | lengthNotSupported
  | internalError
  deriving Repr, DecidableEq

/-- Token kinds that are pushed through unconditionally by the first test
of _handle_token. -/
def PushThroughKind (k : Option String) : Prop :=
  k = some "line comment" ∨ k = some "block comment" ∨ k = some "whitespace"

instance (k : Option String) : Decidable (PushThroughKind k) := by
  unfold PushThroughKind; infer_instance

/-- Embedding of _handle_token from sqlbindarray.py: the transition
function of the placeholder state machine, returning an output operation,
the text it carries, and the next state, or the failure the Python code
raises. -/
def handle_token (t : Token) (state : ParserState) (b : Bindings) :
    Except Err (OutputOp × List Char × ParserState) :=
  if PushThroughKind t.kind then .ok (.PUSH, t.text, state)
  else
    match state with
    | .CHILLIN =>
      if t.kind = some "python named parameter" then
        match t.groups with
        | [some name] =>
          match b name with
          | some v => .ok (.FLUSH, to_sql v, .CHILLIN)
          | none => .ok (.FLUSH, t.text, .CHILLIN)
        | _ => .error .internalError
      else if t.kind = some "python named parameter length" then
        match t.groups with
        | [some name] =>
          match b name with
          | some v =>
            match pyLen v with
            | some n => .ok (.FLUSH, (toString n).data, .CHILLIN)
            | none => .error .lengthNotSupported
          | none => .ok (.FLUSH, t.text, .CHILLIN)
        | _ => .error .internalError
      else if t.kind = some "named parameter prefix" then
        .ok (.PUSH, t.text, .IN_PARAMETER)
      else if t.kind = some "named parameter length prefix" then
        .ok (.PUSH, t.text, .IN_PARAMETER_LENGTH)
      else .ok (.FLUSH, t.text, .CHILLIN)
    | st =>
      let name? : Except Err (List Char) :=
        if t.kind = some "word" then .ok t.text
        else if t.kind = some "quoted identifier" then
          match t.groups with
          | [some n] => .ok n
          | _ => .error .internalError
        else .error .malformedPlaceholder
      match name? with
      | .error e => .error e
      | .ok name =>
        match b name with
        | none => .ok (.FLUSH, t.text, .CHILLIN)
        | some v =>
          if st = .IN_PARAMETER then .ok (.EMIT, to_sql v, .CHILLIN)
          else
            match pyLen v with
            | some n => .ok (.EMIT, (toString n).data, .CHILLIN)
            | none => .error .lengthNotSupported

/-- Embedding of the token loop of replace: out is the committed output,
pending the enqueued parts; PUSH appends to pending, EMIT appends to out
and discards pending, FLUSH commits pending then appends. After the last
token the remaining pending text is committed unconditionally. -/
def replaceGo (b : Bindings) : List Token → ParserState → List Char → List Char →
    Except Err (List Char)
  | [], _, out, pending => .ok (out ++ pending)
  | t :: ts, st, out, pending =>
    match handle_token t st b with
    | .error e => .error e
    | .ok (op, part, st2) =>
      match op with
      | .PUSH => replaceGo b ts st2 out (pending ++ part)
      | .EMIT => replaceGo b ts st2 (out ++ part) []
      | .FLUSH => replaceGo b ts st2 (out ++ pending ++ part) []

/-- Embedding of replace from sqlbindarray.py, the substitute entry
point of the specification. -/
def replace (sql_statement : List Char) (b : Bindings) : Except Err (List Char) :=
  replaceGo b (sqlTokens sql_statement) .CHILLIN [] []

/-- A matcher is well formed when every match splits the input at its
position into the matched text and the rest, with nonempty text. -/
def MatcherWf (m : Matcher) : Prop :=
  ∀ cs r, m cs = some r → r.text ++ r.rest = cs ∧ r.text ≠ []

/-- Embedding of the compiled pattern x star attempted at one position: a
star-quantified pattern always succeeds, matching the possibly empty
maximal run of x characters. Its pattern source is a valid regular
expression, so it is a legitimate sub-pattern set for the tokenizer, yet
it can match the empty string. -/
def xStarMatcher : Matcher := fun cs =>
  some { kind := "star", text := cs.takeWhile (fun c => c == 'x'),
         groups := [], rest := cs.dropWhile (fun c => c == 'x') }

/-- Token kinds that denote placeholder syntax: the two prefix kinds and
the two single-token python placeholder kinds. -/
def PlaceholderKind (k : Option String) : Prop :=
  k = some "named parameter prefix" ∨ k = some "named parameter length prefix" ∨
  k = some "python named parameter" ∨ k = some "python named parameter length"

instance (k : Option String) : Decidable (PlaceholderKind k) := by
  unfold PlaceholderKind; infer_instance

/-- Inverse of quote doubling: collapse each doubled single quote, fail
on a lone single quote. -/
def collapseQuotes : List Char → Option (List Char)
  | [] => some []
  | c :: cs =>
    if c = '\'' then
      match cs with
      | [] => none
      | c2 :: cs2 =>
        if c2 = '\'' then (collapseQuotes cs2).map (fun r => '\'' :: r)
        else none
    else (collapseQuotes cs).map (fun r => c :: r)

/-- Modelled from the spec, claim about encode round-tripping: decoding
a SQL string literal under the same quoting convention strips the outer
single quotes and collapses each doubled inner quote. -/
def sqlDecodeString (cs : List Char) : Option (List Char) :=
  match cs with
  | c :: rest =>
    if c = '\'' ∧ rest.getLast? = some '\'' then collapseQuotes rest.dropLast
    else none
  | [] => none

/-- Bindings of the first worked example of the spec: x bound to 5. -/
def exampleBindX : Bindings := fun n =>
  if n = "x".data then some (.int 5) else none

/-- Bindings of the length worked example: ids bound to a three element
list. -/
def exampleBindIds : Bindings := fun n =>
  if n = "ids".data then some (.list [.int 1, .int 2, .int 3]) else none

/-- Empty bindings. -/
def noBindings : Bindings := fun _ => none

/-- A statement carrying a quoted string whose content looks like a
placeholder: the quotes are built explicitly from the quote character. -/
def quotedExample : List Char :=
  "select ".data ++ '\'' :: ":name".data ++ '\'' :: " from t".data

/-- Bindings binding the name that appears inside the quoted string of
quotedExample. -/
def exampleBindName : Bindings := fun n =>
  if n = "name".data then some (.int 5) else none

@[simp] theorem concatTexts_nil : concatTexts [] = [] := rfl

@[simp] theorem concatTexts_cons (t : Token) (ts : List Token) :
    concatTexts (t :: ts) = t.text ++ concatTexts ts := rfl

@[simp] theorem concatTexts_append (a b : List Token) :
    concatTexts (a ++ b) = concatTexts a ++ concatTexts b := by
  induction a with
  | nil => simp
  | cons t a ih => simp [ih]

@[simp] theorem concatTexts_gapTokens (pos : Nat) (gap : List Char) :
    concatTexts (gapTokens pos gap) = gap.reverse := by
  by_cases h : gap = [] <;> simp [gapTokens, h]

theorem matchQuotedString_wf : MatcherWf matchQuotedString := by
  intro cs r h
  simp only [matchQuotedString] at h
  split at h
  · exact absurd h (by simp)
  · rename_i c rest
    split at h
    · rename_i hc
      split at h
      · rename_i q rest2 hd
        simp only [Option.some.injEq] at h
        subst h
        subst hc
        have hsplit := List.takeWhile_append_dropWhile (fun d => d != '\'') rest
        rw [hd] at hsplit
        refine ⟨?_, by simp⟩
        simp only [List.cons_append, List.append_assoc, List.singleton_append,
          List.nil_append]
        rw [hsplit]
      · exact absurd h (by simp)
    · exact absurd h (by simp)

theorem matchQuotedIdentifier_wf : MatcherWf matchQuotedIdentifier := by
  intro cs r h
  simp only [matchQuotedIdentifier] at h
  split at h
  · exact absurd h (by simp)
  · rename_i c rest
    split at h
    · rename_i hc
      split at h
      · rename_i q rest2 hd
        simp only [Option.some.injEq] at h
        subst h
        subst hc
        have hsplit := List.takeWhile_append_dropWhile (fun d => d != '"') rest
        rw [hd] at hsplit
        refine ⟨?_, by simp⟩
        simp only [List.cons_append, List.append_assoc, List.singleton_append,
          List.nil_append]
        rw [hsplit]
      · exact absurd h (by simp)
    · exact absurd h (by simp)

theorem matchLineComment_wf : MatcherWf matchLineComment := by
  intro cs r h
  simp only [matchLineComment] at h
  split at h
  · rename_i c1 c2 rest
    split at h
    · rename_i hc
      obtain ⟨hc1, hc2⟩ := hc
      subst hc1
      subst hc2
      split at h
      · rename_i nl rest2 hd
        simp only [Option.some.injEq] at h
        subst h
        have hsplit := List.takeWhile_append_dropWhile (fun d => d != '\n') rest
        rw [hd] at hsplit
        refine ⟨?_, by simp⟩
        simp only [List.cons_append, List.append_assoc, List.singleton_append,
          List.nil_append]
        rw [hsplit]
      · rename_i hd
        simp only [Option.some.injEq] at h
        subst h
        have hsplit := List.takeWhile_append_dropWhile (fun d => d != '\n') rest
        rw [hd, List.append_nil] at hsplit
        refine ⟨?_, by simp⟩
        simp only [List.append_nil]
        rw [hsplit]
    · exact absurd h (by simp)
  · exact absurd h (by simp)

theorem scanBlockEnd_append : ∀ cs consumed rest,
    scanBlockEnd cs = some (consumed, rest) → consumed ++ rest = cs := by
  intro cs
  induction cs with
  | nil => intro consumed rest h; exact absurd h (by simp [scanBlockEnd])
  | cons c1 tl ih =>
    intro consumed rest h
    cases tl with
    | nil => exact absurd h (by simp [scanBlockEnd])
    | cons c2 rest2 =>
      simp only [scanBlockEnd] at h
      split at h
      · rename_i hc
        obtain ⟨h1, h2⟩ := hc
        simp only [Option.some.injEq, Prod.mk.injEq] at h
        obtain ⟨hcons, hrest⟩ := h
        subst hcons hrest h1 h2
        simp
      · simp only [Option.map_eq_some'] at h
        obtain ⟨⟨p1, p2⟩, hp, heq⟩ := h
        simp only [Prod.mk.injEq] at heq
        obtain ⟨hcons, hrest⟩ := heq
        subst hcons hrest
        have := ih p1 p2 hp
        simp [← this]

theorem matchBlockComment_wf : MatcherWf matchBlockComment := by
  intro cs r h
  simp only [matchBlockComment] at h
  split at h
  · rename_i c1 c2 rest
    split at h
    · rename_i hc
      obtain ⟨h1, h2⟩ := hc
      split at h
      · rename_i consumed rest2 hscan
        simp only [Option.some.injEq] at h
        subst h h1 h2
        refine ⟨?_, by simp⟩
        have := scanBlockEnd_append rest consumed rest2 hscan
        simp [← this]
      · exact absurd h (by simp)
    · exact absurd h (by simp)
  · exact absurd h (by simp)

theorem matchColonAt_wf : MatcherWf matchColonAt := by
  intro cs r h
  simp only [matchColonAt] at h
  split at h
  · exact absurd h (by simp)
  · split at h
    · simp only [Option.some.injEq] at h
      subst h
      exact ⟨rfl, by simp⟩
    · exact absurd h (by simp)

theorem matchHashColonAt_wf : MatcherWf matchHashColonAt := by
  intro cs r h
  simp only [matchHashColonAt] at h
  split at h
  · rename_i c1 c2 rest
    split at h
    · rename_i hc
      obtain ⟨h1, h2⟩ := hc
      simp only [Option.some.injEq] at h
      subst h h1
      exact ⟨rfl, by simp⟩
    · exact absurd h (by simp)
  · exact absurd h (by simp)

theorem matchPyParam_wf : MatcherWf matchPyParam := by
  intro cs r h
  simp only [matchPyParam] at h
  split at h
  · rename_i c1 c2 rest
    split at h
    · rename_i hc
      obtain ⟨h1, h2⟩ := hc
      subst h1
      subst h2
      split at h
      · exact absurd h (by simp)
      · split at h
        · rename_i p s rest2 hd
          split at h
          · rename_i hps
            obtain ⟨hp, hs⟩ := hps
            subst hp
            subst hs
            simp only [Option.some.injEq] at h
            subst h
            have hsplit := List.takeWhile_append_dropWhile isWordChar rest
            rw [hd] at hsplit
            refine ⟨?_, by simp⟩
            simp only [List.cons_append, List.append_assoc, List.nil_append]
            rw [hsplit]
          · exact absurd h (by simp)
        · exact absurd h (by simp)
    · exact absurd h (by simp)
  · exact absurd h (by simp)

theorem matchPyParamLength_wf : MatcherWf matchPyParamLength := by
  intro cs r h
  simp only [matchPyParamLength] at h
  split at h
  · rename_i c0 c1 c2 rest
    split at h
    · rename_i hc
      obtain ⟨h0, h1, h2⟩ := hc
      subst h0
      subst h1
      subst h2
      split at h
      · exact absurd h (by simp)
      · split at h
        · rename_i p s rest2 hd
          split at h
          · rename_i hps
            obtain ⟨hp, hs⟩ := hps
            subst hp
            subst hs
            simp only [Option.some.injEq] at h
            subst h
            have hsplit := List.takeWhile_append_dropWhile isWordChar rest
            rw [hd] at hsplit
            refine ⟨?_, by simp⟩
            simp only [List.cons_append, List.append_assoc, List.nil_append]
            rw [hsplit]
          · exact absurd h (by simp)
        · exact absurd h (by simp)
    · exact absurd h (by simp)
  · exact absurd h (by simp)

theorem matchWordTok_wf : MatcherWf matchWordTok := by
  intro cs r h
  simp only [matchWordTok] at h
  split at h
  · exact absurd h (by simp)
  · rename_i hne
    simp only [Option.some.injEq] at h
    subst h
    exact ⟨List.takeWhile_append_dropWhile isWordChar cs,
      by simpa [List.isEmpty_iff] using hne⟩

theorem matchWhitespaceTok_wf : MatcherWf matchWhitespaceTok := by
  intro cs r h
  simp only [matchWhitespaceTok] at h
  split at h
  · exact absurd h (by simp)
  · rename_i hne
    simp only [Option.some.injEq] at h
    subst h
    exact ⟨List.takeWhile_append_dropWhile isSpaceChar cs,
      by simpa [List.isEmpty_iff] using hne⟩

theorem tryMatchers_wf : ∀ ms : List Matcher, (∀ m ∈ ms, MatcherWf m) →
    MatcherWf (tryMatchers ms) := by
  intro ms
  induction ms with
  | nil => intro _ cs r h; exact absurd h (by simp [tryMatchers])
  | cons m ms ih =>
    intro hall cs r h
    simp only [tryMatchers] at h
    split at h
    · rename_i r0 hm
      simp only [Option.some.injEq] at h
      subst h
      exact hall m (by simp) cs r0 hm
    · exact ih (fun m2 hm2 => hall m2 (by simp [hm2])) cs r h

theorem matchToken_wf : MatcherWf matchToken := by
  apply tryMatchers_wf
  intro m hm
  simp only [sqlMatchers, List.mem_cons, List.not_mem_nil, or_false] at hm
  rcases hm with rfl | rfl | rfl | rfl | rfl | rfl | rfl | rfl | rfl | rfl
  · exact matchQuotedString_wf
  · exact matchQuotedIdentifier_wf
  · exact matchLineComment_wf
  · exact matchBlockComment_wf
  · exact matchColonAt_wf
  · exact matchHashColonAt_wf
  · exact matchPyParam_wf
  · exact matchPyParamLength_wf
  · exact matchWordTok_wf
  · exact matchWhitespaceTok_wf

theorem matchToken_splits : MatcherSplits matchToken :=
  fun cs r h => (matchToken_wf cs r h).1

theorem matchToken_progress : MatcherProgress matchToken :=
  fun cs r h => (matchToken_wf cs r h).2

/-- With a well formed matcher, enough fuel always produces a token list
whose texts concatenate to the pending gap followed by the remaining
input: the tokenizer terminates, consumes the whole input and loses
nothing. -/
theorem lexFuel_sound (M : Matcher) (hM : MatcherWf M) :
    ∀ fuel pos gap cs, cs.length < fuel →
      ∃ ts, lexFuel M fuel pos gap cs = some ts ∧
        concatTexts ts = gap.reverse ++ cs := by
  intro fuel
  induction fuel with
  | zero => intro pos gap cs h; exact absurd h (Nat.not_lt_zero _)
  | succ n ih =>
    intro pos gap cs hlen
    cases hm : M cs with
    | some r =>
      obtain ⟨hsplit, hne⟩ := hM cs r hm
      have hlt : r.rest.length < n := by
        have hL : r.text.length + r.rest.length = cs.length := by
          rw [← hsplit]; simp
        have hpos : 0 < r.text.length := List.length_pos.mpr hne
        omega
      obtain ⟨ts, hts, hcat⟩ := ih (pos + r.text.length) [] r.rest hlt
      refine ⟨gapTokens pos gap ++
        { kind := some r.kind, text := r.text, groups := r.groups,
          range := (pos, pos + r.text.length) } :: ts, ?_, ?_⟩
      · simp only [lexFuel, hm, hts, Option.map_some']
      · simp only [concatTexts_append, concatTexts_gapTokens, concatTexts_cons, hcat]
        simp [← hsplit]
    | none =>
      cases cs with
      | nil =>
        refine ⟨gapTokens pos gap, ?_, by simp⟩
        simp [lexFuel, hm]
      | cons c rest =>
        have hlt : rest.length < n := by
          simp only [List.length_cons] at hlen; omega
        obtain ⟨ts, hts, hcat⟩ := ih (pos + 1) (c :: gap) rest hlt
        refine ⟨ts, ?_, ?_⟩
        · simp only [lexFuel, hm, hts]
        · simp [hcat]

/-- The sqlbindarray token stream is the completed run of the generic
tokenizer on the fixed sub-pattern set. -/
theorem sqlTokens_eq (cs : List Char) :
    lexAll matchToken cs = some (sqlTokens cs) := by
  obtain ⟨ts, hts, -⟩ :=
    lexFuel_sound matchToken matchToken_wf (cs.length + 1) 0 [] cs (by omega)
  simp [sqlTokens, lexAll, hts]

/-- Concatenating the token texts of the sqlbindarray token stream gives
back the input. -/
theorem sqlTokens_concat (cs : List Char) :
    concatTexts (sqlTokens cs) = cs := by
  obtain ⟨ts, hts, hcat⟩ :=
    lexFuel_sound matchToken matchToken_wf (cs.length + 1) 0 [] cs (by omega)
  have : sqlTokens cs = ts := by simp [sqlTokens, lexAll, hts]
  rw [this, hcat]
  simp

theorem xStarMatcher_splits : MatcherSplits xStarMatcher := by
  intro cs r h
  simp only [xStarMatcher, Option.some.injEq] at h
  subst h
  exact List.takeWhile_append_dropWhile _ cs

/-- On an input starting with a character other than x, the tokenizer
driven by the x star pattern makes no progress: no amount of fuel
completes, mirroring the infinite loop of the Python generator on a
zero-width match. -/
theorem xStar_stuck : ∀ fuel pos, lexFuel xStarMatcher fuel pos [] ['b'] = none := by
  intro fuel
  induction fuel with
  | zero => intro pos; rfl
  | succ n ih =>
    intro pos
    have hm : xStarMatcher ['b'] =
        some { kind := "star", text := [], groups := [], rest := ['b'] } := rfl
    simp only [lexFuel, hm, List.length_nil, Nat.add_zero]
    rw [ih pos]
    rfl

/-- In the default state, a token that is not placeholder syntax is
either pushed (comments and whitespace) or flushed with its own text, and
the state stays CHILLIN. -/
theorem handle_token_chillin_pass (t : Token) (b : Bindings)
    (hk : ¬ PlaceholderKind t.kind) :
    handle_token t .CHILLIN b = .ok (.PUSH, t.text, .CHILLIN) ∨
    handle_token t .CHILLIN b = .ok (.FLUSH, t.text, .CHILLIN) := by
  have h1 : t.kind ≠ some "python named parameter" :=
    fun hh => hk (Or.inr (Or.inr (Or.inl hh)))
  have h2 : t.kind ≠ some "python named parameter length" :=
    fun hh => hk (Or.inr (Or.inr (Or.inr hh)))
  have h3 : t.kind ≠ some "named parameter prefix" := fun hh => hk (Or.inl hh)
  have h4 : t.kind ≠ some "named parameter length prefix" :=
    fun hh => hk (Or.inr (Or.inl hh))
  by_cases hp : PushThroughKind t.kind
  · left
    simp [handle_token, hp]
  · right
    simp [handle_token, hp, h1, h2, h3, h4]

/-- Running the driver over tokens free of placeholder syntax from the
default state appends exactly the concatenated token texts. -/
theorem replaceGo_chillin (b : Bindings) :
    ∀ ts : List Token, (∀ t ∈ ts, ¬ PlaceholderKind t.kind) →
      ∀ out pending, replaceGo b ts .CHILLIN out pending =
        .ok (out ++ pending ++ concatTexts ts) := by
  intro ts
  induction ts with
  | nil => intro _ out pending; simp [replaceGo]
  | cons t ts ih =>
    intro hall out pending
    rcases handle_token_chillin_pass t b (hall t (by simp)) with hP | hF
    · simp only [replaceGo, hP]
      rw [ih (fun u hu => hall u (by simp [hu])) out (pending ++ t.text)]
      simp [List.append_assoc]
    · simp only [replaceGo, hF]
      rw [ih (fun u hu => hall u (by simp [hu])) (out ++ pending ++ t.text) []]
      simp [List.append_assoc]

theorem collapseQuotes_cons_ne (c : Char) (cs : List Char) (h : ¬ c = '\'') :
    collapseQuotes (c :: cs) = (collapseQuotes cs).map (fun r => c :: r) := by
  cases cs <;> simp [collapseQuotes, h]

theorem collapseQuotes_cons_quote (cs : List Char) :
    collapseQuotes ('\'' :: '\'' :: cs) =
      (collapseQuotes cs).map (fun r => '\'' :: r) := by
  simp [collapseQuotes]

theorem collapse_doubleQuotes : ∀ s, collapseQuotes (doubleQuotes s) = some s := by
  intro s
  induction s with
  | nil => rfl
  | cons c cs ih =>
    by_cases hc : c = '\''
    · subst hc
      simp [doubleQuotes, collapseQuotes_cons_quote, ih]
    · simp [doubleQuotes, hc, collapseQuotes_cons_ne, ih]

/-- The comma-and-space join inside to_sql coincides with the library
intercalation of the element encodings. -/
theorem to_sql_list_intercalate : ∀ vs : List Value,
    to_sql_list vs = List.intercalate (", ".data) (vs.map to_sql) := by
  intro vs
  induction vs with
  | nil => simp [to_sql_list, List.intercalate]
  | cons v tl ih =>
    cases tl with
    | nil => simp [to_sql_list, List.intercalate]
    | cons w tl2 =>
      rw [to_sql_list, ih]
      · simp [List.intercalate, List.intersperse]
      · simp

/-- Maximal munch over a quote-free region: the quoted string body is
taken whole and scanning stops at the closing quote. -/
theorem noQuote_span (body rest : List Char) (h : ∀ c ∈ body, c ≠ '\'') :
    (body ++ '\'' :: rest).takeWhile (fun d => d != '\'') = body ∧
    (body ++ '\'' :: rest).dropWhile (fun d => d != '\'') = '\'' :: rest := by
  induction body with
  | nil => simp [List.takeWhile_cons, List.dropWhile_cons]
  | cons c body ih =>
    have hc : (c != '\'') = true := by
      have := h c (by simp)
      simpa using this
    obtain ⟨h1, h2⟩ := ih (fun d hd => h d (by simp [hd]))
    simp [List.takeWhile_cons, List.dropWhile_cons, hc, h1, h2]

/-- At a single quote opening a quote-free body closed by another quote,
the combined pattern matches the whole quoted string token, whatever
follows. -/
theorem matchToken_quoted (body rest : List Char) (h : ∀ c ∈ body, c ≠ '\'') :
    matchToken ('\'' :: (body ++ '\'' :: rest)) =
      some { kind := "quoted string", text := '\'' :: (body ++ ['\'']),
             groups := [], rest := rest } := by
  obtain ⟨h1, h2⟩ := noQuote_span body rest h
  have hq : matchQuotedString ('\'' :: (body ++ '\'' :: rest)) =
      some { kind := "quoted string", text := '\'' :: (body ++ ['\'']),
             groups := [], rest := rest } := by
    simp [matchQuotedString, h1, h2]
  simp [matchToken, sqlMatchers, tryMatchers, hq]

/-- C1. The claim expects substitution of a bound value placeholder to
preserve all surrounding text, including the blank before the
placeholder. Evaluating the code at the claimed input shows the driver
discards the blank: the blank was pushed onto the pending buffer before
the withheld prefix, and the EMIT operation for the bound name clears the
whole pending buffer, so the output reads id =5 and differs from the
spelled-out expectation id = 5. -/
theorem claim1_value_substitution_eval :
    replace "select * from t where id = :x".data exampleBindX =
      .ok "select * from t where id =5".data ∧
    "select * from t where id =5".data ≠
      "select * from t where id = 5".data := by
  exact ⟨rfl, by decide⟩

/-- C2. The claim expects the length placeholder example to produce
select 3 with the blank preserved. The length is indeed the element
count of the bound list (3), but the EMIT operation discards the pending
blank pushed before the length prefix, so the code returns select3. -/
theorem claim2_length_substitution_eval :
    replace "select #:ids".data exampleBindIds = .ok "select3".data ∧
    "select3".data ≠ "select 3".data := by
  exact ⟨rfl, by decide⟩

/-- C3 counterexample. The claim quantifies over every sub-pattern set,
but with the valid pattern x star (which the regular expression engine
matches as a zero-width match on input b) the tokenizer makes no
progress: no finite token sequence is ever produced, so no concatenation
can reconstruct the input. -/
theorem claim3_counterexample :
    MatcherSplits xStarMatcher ∧
    ¬ ∃ fuel ts, lexFuel xStarMatcher fuel 0 [] ['b'] = some ts ∧
      concatTexts ts = ['b'] := by
  refine ⟨xStarMatcher_splits, ?_⟩
  rintro ⟨fuel, ts, hts, -⟩
  rw [xStar_stuck fuel 0] at hts
  exact Option.noConfusion hts

/-- C3 as amended: for every input and every sub-pattern set whose
matches are slices and never empty, the tokenizer completes and
concatenating the token texts in emission order reconstructs the input
exactly. -/
theorem claim3_amended_concat (M : Matcher) (hs : MatcherSplits M)
    (hp : MatcherProgress M) (cs : List Char) :
    ∃ ts, lexAll M cs = some ts ∧ concatTexts ts = cs := by
  have hwf : MatcherWf M := fun cs2 r h => ⟨hs cs2 r h, hp cs2 r h⟩
  obtain ⟨ts, h1, h2⟩ :=
    lexFuel_sound M hwf (cs.length + 1) 0 [] cs (by omega)
  exact ⟨ts, h1, by simpa using h2⟩

theorem claim3_witness :
    ∃ ts, lexAll matchToken "a :b".data = some ts ∧
      concatTexts ts = "a :b".data :=
  claim3_amended_concat matchToken matchToken_splits matchToken_progress
    "a :b".data

/-- C4 counterexample. Tokenization does not always terminate: with the
valid sub-pattern x star on input b the generator loops forever on a
zero-width match, so no fuel completes the run. -/
theorem claim4_counterexample :
    MatcherSplits xStarMatcher ∧
    ¬ ∃ fuel, (lexFuel xStarMatcher fuel 0 [] ['b']).isSome := by
  refine ⟨xStarMatcher_splits, ?_⟩
  rintro ⟨fuel, hts⟩
  rw [xStar_stuck fuel 0] at hts
  simp at hts

/-- C4 as amended: for every input and every sub-pattern set whose
matches are slices and never empty, tokenization terminates with a
finite token sequence, fully consuming the input. -/
theorem claim4_amended_terminates (M : Matcher) (hs : MatcherSplits M)
    (hp : MatcherProgress M) (cs : List Char) :
    (lexAll M cs).isSome := by
  have hwf : MatcherWf M := fun cs2 r h => ⟨hs cs2 r h, hp cs2 r h⟩
  obtain ⟨ts, h1, -⟩ :=
    lexFuel_sound M hwf (cs.length + 1) 0 [] cs (by omega)
  simp [lexAll, h1]

theorem claim4_witness : (lexAll matchToken "x = 1 -- done".data).isSome :=
  claim4_amended_terminates matchToken matchToken_splits matchToken_progress
    "x = 1 -- done".data

/-- C5. On input whose token stream contains no placeholder syntax (no
value prefix, length prefix, or python style placeholder token),
substitution is the identity, for every bindings map. -/
theorem claim5_identity (cs : List Char) (b : Bindings)
    (h : ∀ t ∈ sqlTokens cs, ¬ PlaceholderKind t.kind) :
    replace cs b = .ok cs := by
  unfold replace
  rw [replaceGo_chillin b (sqlTokens cs) h [] []]
  simp [sqlTokens_concat]

theorem claim5_witness :
    replace "update t set a = 1 where b < 2".data (fun _ => some (.int 9)) =
      .ok "update t set a = 1 where b < 2".data :=
  claim5_identity "update t set a = 1 where b < 2".data
    (fun _ => some (.int 9)) (by decide)

/-- C6. A placeholder name absent from the bindings is never an error:
the transition function flushes the original token text (after the
withheld prefix held in the pending buffer) and returns to the default
state; end to end, an unbound placeholder passes through unchanged,
prefix included. -/
theorem claim6_unbound_passthrough :
    (∀ (t : Token) (st : ParserState) (b : Bindings), st ≠ .CHILLIN →
      ((t.kind = some "word" ∧ b t.text = none) ∨
       (t.kind = some "quoted identifier" ∧
         ∃ n, t.groups = [some n] ∧ b n = none)) →
      handle_token t st b = .ok (.FLUSH, t.text, .CHILLIN)) ∧
    replace "select :missing".data noBindings = .ok "select :missing".data := by
  constructor
  · intro t st b hst hcase
    cases st with
    | CHILLIN => exact absurd rfl hst
    | IN_PARAMETER =>
      rcases hcase with ⟨hk, hb⟩ | ⟨hk, n, hg, hb⟩
      · simp [handle_token, PushThroughKind, hk, hb]
      · simp [handle_token, PushThroughKind, hk, hg, hb]
    | IN_PARAMETER_LENGTH =>
      rcases hcase with ⟨hk, hb⟩ | ⟨hk, n, hg, hb⟩
      · simp [handle_token, PushThroughKind, hk, hb]
      · simp [handle_token, PushThroughKind, hk, hg, hb]
  · rfl

/-- C7. After a value or length prefix, comments and whitespace are
pushed with the state unchanged, and any other token that is neither a
word nor a quoted identifier fails with the malformed placeholder error;
a double colon triggers this. Input that ends right after a prefix is
not an error: the final unconditional flush emits the bare prefix. -/
theorem claim7_malformed_placeholder :
    (∀ (t : Token) (st : ParserState) (b : Bindings), st ≠ .CHILLIN →
      ¬ PushThroughKind t.kind → t.kind ≠ some "word" →
      t.kind ≠ some "quoted identifier" →
      handle_token t st b = .error .malformedPlaceholder) ∧
    (∀ (t : Token) (st : ParserState) (b : Bindings), PushThroughKind t.kind →
      handle_token t st b = .ok (.PUSH, t.text, st)) ∧
    replace "select x::text".data noBindings = .error .malformedPlaceholder ∧
    replace "select :".data noBindings = .ok "select :".data := by
  refine ⟨?_, ?_, rfl, rfl⟩
  · intro t st b hst hp hw hq
    cases st with
    | CHILLIN => exact absurd rfl hst
    | IN_PARAMETER => simp [handle_token, hp, hw, hq]
    | IN_PARAMETER_LENGTH => simp [handle_token, hp, hw, hq]
  · intro t st b hp
    simp [handle_token, hp]

/-- C8. Encoding a string wraps it in single quotes doubling each inner
quote and nothing else, so decoding under the same convention (strip the
outer quotes, collapse doubled quotes) recovers the string exactly. -/
theorem claim8_encode_roundtrip (s : List Char) :
    to_sql (.str s) = '\'' :: (doubleQuotes s ++ ['\'']) ∧
    sqlDecodeString (to_sql (.str s)) = some s := by
  constructor
  · rfl
  · show sqlDecodeString ('\'' :: (doubleQuotes s ++ ['\''])) = some s
    simp [sqlDecodeString, List.getLast?_concat, List.dropLast_concat,
      collapse_doubleQuotes]

theorem claim8_witness :
    to_sql (.str ('a' :: '\'' :: ['b'])) =
      '\'' :: (doubleQuotes ('a' :: '\'' :: ['b']) ++ ['\'']) ∧
    sqlDecodeString (to_sql (.str ('a' :: '\'' :: ['b']))) =
      some ('a' :: '\'' :: ['b']) :=
  claim8_encode_roundtrip ('a' :: '\'' :: ['b'])

/-- C9. Encoding a sequence produces an open parenthesis, the recursive
encodings of the elements intercalated with comma and space, and a close
parenthesis; the empty sequence encodes as a bare parenthesis pair, and
nesting follows the same recursion. -/
theorem claim9_list_encoding (vs : List Value) :
    to_sql (.list vs) =
      '(' :: (List.intercalate (", ".data) (vs.map to_sql) ++ [')']) ∧
    to_sql (.list []) = "()".data := by
  constructor
  · show '(' :: (to_sql_list vs ++ [')']) =
      '(' :: (List.intercalate (", ".data) (vs.map to_sql) ++ [')'])
    rw [to_sql_list_intercalate]
  · rfl

theorem claim9_witness :
    to_sql (.list [.list [.int 1], .int 2]) =
      '(' :: (List.intercalate (", ".data)
        ([Value.list [.int 1], Value.int 2].map to_sql) ++ [')']) ∧
    to_sql (.list []) = "()".data :=
  claim9_list_encoding [.list [.int 1], .int 2]

/-- C10. A quoted string token met in the default state is flushed to
the committed output verbatim for every bindings map; the tokenizer
consumes a whole quoted region as one quoted string token, so
placeholder-looking text between the quotes is never substituted, as the
end to end run on a statement quoting a bound-looking name shows. -/
theorem claim10_quoted_passthrough :
    (∀ (t : Token) (b : Bindings), t.kind = some "quoted string" →
      handle_token t .CHILLIN b = .ok (.FLUSH, t.text, .CHILLIN)) ∧
    (∀ body rest : List Char, (∀ c ∈ body, c ≠ '\'') →
      matchToken ('\'' :: (body ++ '\'' :: rest)) =
        some { kind := "quoted string", text := '\'' :: (body ++ ['\'']),
               groups := [], rest := rest }) ∧
    replace quotedExample exampleBindName = .ok quotedExample := by
  refine ⟨?_, matchToken_quoted, rfl⟩
  intro t b hk
  simp [handle_token, PushThroughKind, hk]

end Sqlbindarray
